import Mathlib

/-!
Verification of the go-postmangen request compiler against its specification.

The Go sources are shallowly embedded: struct types become the inductive
`GoType`, runtime values that can appear in generated request documents become
`GoValue`, and the library functions (`walkStructFields`, `TypeZeroValue`,
`Register`, ...) become Lean functions of the same names and structure.
Go strings are modelled as Lean strings; byte-level operations that the code
performs (split on a slash, trim slashes, colon tests) are carried out on the
character list of the string.
-/

set_option maxHeartbeats 1000000
set_option linter.unreachableTactic false
set_option linter.unusedTactic false
set_option linter.unnecessarySeqFocus false

namespace Postmangen

/-- One declared field of a Go struct type, with the struct tags read by
`Register` (lines 114-121 of the source).  `τ` is instantiated with `GoType`;
the parameter only serves to form the nested inductive below. -/
structure GoFieldG (τ : Type) where
  name : String
  jsonTag : String
  formTag : String
  formFileTag : String
  queryTag : String
  paramTag : String
  descriptionTag : String
  exampleTag : String
  anonymous : Bool
  fieldType : τ
deriving Repr

/-- The fragment of Go's type universe that the library inspects:
pointers, structs, slices, and the primitive kinds that occur in request
records.  `reflect.Type` values in the source correspond to this type. -/
inductive GoType where
  | ptrT : GoType → GoType
  | structT : List (GoFieldG GoType) → GoType
  | sliceT : GoType → GoType
  | intT : GoType
  | boolT : GoType
  | stringT : GoType
deriving Repr

abbrev GoField := GoFieldG GoType

/-- Go runtime values as they flow into the generated document: strings from
tags and defaults, native zero values from `reflect.Zero`, slices built by
`TypeZeroValue`, struct values, and `nil` (zero pointers and nil slices
inside zero struct values). -/
inductive GoValue where
  | str : String → GoValue
  | int : Int → GoValue
  | bool : Bool → GoValue
  | list : List GoValue → GoValue
  | structV : List (String × String × GoValue) → GoValue
  | null : GoValue
deriving Repr

/-! ## String helpers

Byte-level operations of the Go standard library used by `Register`
(`strings.Trim(path, "/")`, `strings.Split(path, "/")`,
`strings.Join(segments, "/")`) modelled on the character list of a string. -/

/-- Core of `strings.Split(s, "/")`: splitting a character list at every
slash.  Splitting the empty string yields one empty segment, as in Go. -/
def splitSlashAux : List Char → List (List Char)
  | [] => [[]]
  | c :: rest =>
    match splitSlashAux rest with
    | [] => [[c]]
    | h :: t => if c = '/' then [] :: h :: t else (c :: h) :: t

/-- `strings.Split(s, "/")`. -/
def splitSlash (s : String) : List String :=
  (splitSlashAux s.toList).map fun l => String.mk l

/-- `strings.Trim(s, "/")`: remove all leading and trailing slashes. -/
def trimSlashes (s : String) : String :=
  String.mk (((s.toList.dropWhile (· == '/')).reverse.dropWhile (· == '/')).reverse)

/-- Line 207 of the source: `strings.Split(strings.Trim(path, "/"), "/")`. -/
def splitPath (path : String) : List String :=
  splitSlash (trimSlashes path)

/-! ## JSON encoding (model of `encoding/json` on `GoValue`)

`Register` serializes the JSON body with `json.MarshalIndent(jsonParams, "", "  ")`
and `TypeZeroValue` serializes zero struct values with `json.Marshal`.
Control characters below `0x20` other than newline, carriage return and tab
are not escaped by this model; no such character occurs in any value the
claims exercise. -/

/-- Lower-case hexadecimal digit, as `encoding/json` emits in escapes. -/
def hexDigit (n : Nat) : Char :=
  if n < 10 then Char.ofNat (48 + n) else Char.ofNat (87 + n)

/-- Escape one character the way `encoding/json` does by default
(including the HTML-safe escapes for angle brackets and ampersand). -/
def jsonEscapeChar (c : Char) : String :=
  if c = '"' then "\\\""
  else if c = '\\' then "\\\\"
  else if c = '\n' then "\\n"
  else if c = '\r' then "\\r"
  else if c = '\t' then "\\t"
  else if c = '<' then "\\u003c"
  else if c = '>' then "\\u003e"
  else if c = '&' then "\\u0026"
  else String.singleton c

/-- A JSON string literal: quoted and escaped. -/
def jsonQuote (s : String) : String :=
  "\"" ++ String.join (s.toList.map jsonEscapeChar) ++ "\""

/-- The JSON object key of a struct field: the `json` tag when present,
the declared field name otherwise (tag `"-"` is excluded by the caller). -/
def jsonFieldKey (n tag : String) : String :=
  if tag = "" then n else tag

mutual

/-- `json.Marshal` (compact) on the modelled value universe.  Struct fields
tagged `json:"-"` are skipped, nil pointers and nil slices encode as `null`. -/
def jsonMarshal : GoValue → String
  | .null => "null"
  | .int n => toString n
  | .bool b => cond b "true" "false"
  | .str s => jsonQuote s
  | .list xs => "[" ++ String.intercalate "," (jsonMarshalList xs) ++ "]"
  | .structV fs => "\x7b" ++ String.intercalate "," (jsonMarshalFields fs) ++ "\x7d"

/-- Compact encodings of the elements of a JSON array. -/
def jsonMarshalList : List GoValue → List String
  | [] => []
  | v :: tl => jsonMarshal v :: jsonMarshalList tl

/-- Compact `"key":value` fragments of a struct value, skipping `json:"-"`. -/
def jsonMarshalFields : List (String × String × GoValue) → List String
  | [] => []
  | (n, tag, v) :: tl =>
    if tag = "-" then jsonMarshalFields tl
    else (jsonQuote (jsonFieldKey n tag) ++ ":" ++ jsonMarshal v) :: jsonMarshalFields tl

end

/-- The indentation prefix at nesting level `lvl` for
`json.MarshalIndent(·, "", "  ")`: two spaces per level. -/
def jsonIndent (lvl : Nat) : String :=
  String.mk (List.replicate (2 * lvl) ' ')

mutual

/-- `json.MarshalIndent(·, "", "  ")` on a single value at nesting
level `lvl`.  Empty arrays and objects stay on one line, as Go emits them. -/
def jsonMarshalIndent : GoValue → Nat → String
  | .null, _ => "null"
  | .int n, _ => toString n
  | .bool b, _ => cond b "true" "false"
  | .str s, _ => jsonQuote s
  | .list [], _ => "[]"
  | .list xs, lvl =>
    "[\n" ++ String.intercalate ",\n" (jsonMarshalIndentList xs (lvl + 1)) ++
      "\n" ++ jsonIndent lvl ++ "]"
  | .structV fs, lvl =>
    match jsonMarshalIndentFields fs (lvl + 1) with
    | [] => "\x7b\x7d"
    | parts => "\x7b\n" ++ String.intercalate ",\n" parts ++ "\n" ++ jsonIndent lvl ++ "\x7d"

/-- Indented encodings of the elements of a JSON array. -/
def jsonMarshalIndentList : List GoValue → Nat → List String
  | [], _ => []
  | v :: tl, lvl => (jsonIndent lvl ++ jsonMarshalIndent v lvl) :: jsonMarshalIndentList tl lvl

/-- Indented `"key": value` fragments of a struct value, skipping `json:"-"`. -/
def jsonMarshalIndentFields : List (String × String × GoValue) → Nat → List String
  | [], _ => []
  | (n, tag, v) :: tl, lvl =>
    if tag = "-" then jsonMarshalIndentFields tl lvl
    else (jsonIndent lvl ++ jsonQuote (jsonFieldKey n tag) ++ ": " ++ jsonMarshalIndent v lvl) ::
      jsonMarshalIndentFields tl lvl

end

/-- Insertion step of the key sort `encoding/json` applies to map keys. -/
def insertSortedKey (p : String × GoValue) : List (String × GoValue) → List (String × GoValue)
  | [] => [p]
  | q :: tl => if p.1 ≤ q.1 then p :: q :: tl else q :: insertSortedKey p tl

/-- `encoding/json` serializes map entries in ascending key order. -/
def sortByKey (m : List (String × GoValue)) : List (String × GoValue) :=
  m.foldr insertSortedKey []

/-- `json.MarshalIndent(jsonParams, "", "  ")` for the `map[string]any`
holding the JSON body (line 254 of the source): entries sorted by key,
object layout with two-space indentation. -/
def jsonMarshalIndentMap (m : List (String × GoValue)) : String :=
  match (sortByKey m).map (fun kv => jsonIndent 1 ++ jsonQuote kv.1 ++ ": " ++ jsonMarshalIndent kv.2 1) with
  | [] => "\x7b\x7d"
  | parts => "\x7b\n" ++ String.intercalate ",\n" parts ++ "\n\x7d"

/-! ## Zero values -/

mutual

/-- `reflect.Zero(t).Interface()`: the native Go zero value of a type.
Nil pointers and nil slices are both `nil` (both encode to JSON `null`). -/
def reflectZero : GoType → GoValue
  | .ptrT _ => .null
  | .structT fs => .structV (reflectZeroFields fs)
  | .sliceT _ => .null
  | .intT => .int 0
  | .boolT => .bool false
  | .stringT => .str ""

/-- Zero values of the fields of a zero struct value, keeping each field's
declared name and `json` tag for later serialization. -/
def reflectZeroFields : List GoField → List (String × String × GoValue)
  | [] => []
  | f :: tl => (f.name, f.jsonTag, reflectZero f.fieldType) :: reflectZeroFields tl

end

/-- `TypeZeroValue` (lines 324-342 of the source): pointers unwrap and
recurse; struct types with `preferString` serialize their zero value to a
JSON string; slices produce a one-element slice of the element type's zero
value; everything else is the native zero value. -/
def TypeZeroValue : GoType → Bool → GoValue
  | .ptrT t, preferString => TypeZeroValue t preferString
  | .structT fs, true => .str (jsonMarshal (reflectZero (.structT fs)))
  | .sliceT t, preferString => .list [TypeZeroValue t preferString]
  | t, _ => reflectZero t

/-! ## `fmt.Sprint` -/

mutual

/-- `fmt.Sprint` on one modelled value (`%v` formatting): strings verbatim,
numbers in decimal, booleans as `true`/`false`, slices as space-separated
elements in brackets, structs as space-separated field values in braces. -/
def goSprint : GoValue → String
  | .str s => s
  | .int n => toString n
  | .bool b => cond b "true" "false"
  | .list xs => "[" ++ String.intercalate " " (goSprintList xs) ++ "]"
  | .structV fs => "\x7b" ++ String.intercalate " " (goSprintFields fs) ++ "\x7d"
  | .null => "<nil>"

/-- `%v` renderings of slice elements. -/
def goSprintList : List GoValue → List String
  | [] => []
  | v :: tl => goSprint v :: goSprintList tl

/-- `%v` renderings of struct field values. -/
def goSprintFields : List (String × String × GoValue) → List String
  | [] => []
  | (_, _, v) :: tl => goSprint v :: goSprintFields tl

end

/-! ## Postman document structures (`github.com/rbretecher/go-postman-collection`)

Only the fields the library writes are modelled; unset string fields of the
Go structs are the empty string. -/

/-- `postman.Variable`. -/
structure Variable where
  key : String
  value : String
  type : String
  description : String
deriving Repr, DecidableEq

/-- `postman.QueryParam` (the source always sets the description pointer). -/
structure QueryParam where
  key : String
  value : String
  description : String
deriving Repr, DecidableEq

/-- `postman.Header`. -/
structure Header where
  key : String
  value : String
deriving Repr, DecidableEq

/-- The local `FormParam` struct of `Register` (lines 101-106):
`type` is `"text"` for `form` fields and `"file"` for `formFile` fields. -/
structure FormParam where
  key : String
  value : String
  type : String
  description : String
deriving Repr, DecidableEq

/-- `postman.Body`: `mode` is `""` when untouched, `"formdata"` or `"raw"`
otherwise; `rawLanguage` models `Options.Raw.Language`. -/
structure Body where
  mode : String
  raw : String
  formData : List FormParam
  rawLanguage : Option String
deriving Repr, DecidableEq

/-- `postman.URL` as filled in by `Register` (lines 237-243). -/
structure URL where
  raw : String
  host : List String
  path : List String
  query : List QueryParam
  variableList : List Variable
deriving Repr, DecidableEq

/-- `postman.Request` as filled in by `Register` (lines 236-247). -/
structure Request where
  url : URL
  method : String
  header : List Header
  body : Body
deriving Repr, DecidableEq

/-- `postman.Items`: a tree node with a name, a child list, and an optional
attached request.  A node is a folder (group) when `request` is `none`. -/
inductive Items where
  | mk : String → List Items → Option Request → Items
deriving Repr

/-- The node's name. -/
def Items.name : Items → String
  | .mk n _ _ => n

/-- The node's children. -/
def Items.items : Items → List Items
  | .mk _ cs _ => cs

/-- The node's attached request, `none` for folders. -/
def Items.request : Items → Option Request
  | .mk _ _ r => r

/-- The `PostmanGen` state: the collection's variable list and item tree,
plus the caller defaults registered with `AddPlaceholder`.  The Go map
`placeholderDefaults` is an association list with at most one entry per key.
The collection's name, description, and the fixed bearer-token auth config
are plain constant data never read by `Register` and are not modelled. -/
structure PostmanGen where
  variableList : List Variable
  items : List Items
  placeholderDefaults : List (String × String)

/-- `NewPostmanGen`: empty collection, no caller defaults. -/
def NewPostmanGen : PostmanGen :=
  ⟨[], [], []⟩

/-- Insert-or-replace into a Go map modelled as an association list. -/
def mapInsert {α : Type} : List (String × α) → String → α → List (String × α)
  | [], k, v => [(k, v)]
  | (k0, v0) :: tl, k, v => if k0 == k then (k, v) :: tl else (k0, v0) :: mapInsert tl k v

/-- Go map lookup (`m[k]` with its `ok` flag). -/
def mapLookup {α : Type} (m : List (String × α)) (k : String) : Option α :=
  (m.find? fun p => p.1 == k).map Prod.snd

/-- `AddVariable`: append a collection variable of type `"string"`. -/
def AddVariable (p : PostmanGen) (key value : String) : PostmanGen :=
  { p with variableList := p.variableList ++ [⟨key, value, "string", ""⟩] }

/-- `AddPlaceholder`: set a caller default for a key. -/
def AddPlaceholder (p : PostmanGen) (key value : String) : PostmanGen :=
  { p with placeholderDefaults := mapInsert p.placeholderDefaults key value }

/-! ## Field walking (`walkStructFields`, lines 34-63) -/

/-- One level of pointer dereference (`t.Elem()` guarded by a `Ptr` kind
check); other types are returned unchanged. -/
def derefOnce : GoType → GoType
  | .ptrT e => e
  | t => t

/-- `t.Kind() == reflect.Struct`. -/
def isStructKind : GoType → Bool
  | .structT _ => true
  | _ => false

mutual

/-- `walkStructFields`: dereference one pointer level, return nothing for
non-struct types, otherwise walk the declared fields in order.  Unexported
fields are skipped by the source; the embedding only models exported fields. -/
def walkStructFields : GoType → List GoField
  | .ptrT (.structT fs) => walkFields fs
  | .structT fs => walkFields fs
  | _ => []

/-- The field loop: an anonymous (embedded) field whose type is a struct or
pointer-to-struct is expanded inline by recursing into it; every other field
is emitted as itself. -/
def walkFields : List GoField → List GoField
  | [] => []
  | f :: tl =>
    (match f.anonymous, f.fieldType with
     | true, .structT _ => walkStructFields f.fieldType
     | true, .ptrT (.structT _) => walkStructFields f.fieldType
     | _, _ => [f]) ++ walkFields tl

end

/-! ## Placeholder resolution (lines 113-204) -/

/-- The blank test `x == "" || x == "-"` applied to tags and placeholder
strings throughout `Register`. -/
def tagBlank (s : String) : Bool :=
  s == "" || s == "-"

/-- The guard `tag != "" && tag != "-"` under which a routing tag
contributes an output fragment. -/
def usableTag (tag : String) : Bool :=
  tag != "" && tag != "-"

/-- Key resolution (lines 123-142): each role's key is the tag value,
falling back to the declared field name when the tag is empty or `"-"`. -/
def keyOr (tag name : String) : String :=
  if tagBlank tag then name else tag

/-- The field's resolved json-key. -/
def jsonKeyOf (f : GoField) : String := keyOr f.jsonTag f.name

/-- The field's resolved form-key. -/
def formKeyOf (f : GoField) : String := keyOr f.formTag f.name

/-- The field's resolved formFile-key. -/
def formFileKeyOf (f : GoField) : String := keyOr f.formFileTag f.name

/-- The field's resolved query-key. -/
def queryKeyOf (f : GoField) : String := keyOr f.queryTag f.name

/-- The field's resolved param-key. -/
def paramKeyOf (f : GoField) : String := keyOr f.paramTag f.name

/-- The caller-defaults probe (lines 146-156): the five resolved keys are
tried in the fixed order json, form, formFile, query, param; the first
present entry wins. -/
def probeDefaults (d : List (String × String)) (f : GoField) : Option String :=
  match mapLookup d (jsonKeyOf f) with
  | some v => some v
  | none =>
    match mapLookup d (formKeyOf f) with
    | some v => some v
    | none =>
      match mapLookup d (formFileKeyOf f) with
      | some v => some v
      | none =>
        match mapLookup d (queryKeyOf f) with
        | some v => some v
        | none => mapLookup d (paramKeyOf f)

/-- The string held by `placeholderValue` after lines 144-157: the `example`
tag when non-blank, else the first matching caller default, else the (blank)
`example` tag unchanged. -/
def resolveRaw (d : List (String × String)) (f : GoField) : String :=
  if usableTag f.exampleTag then f.exampleTag
  else (probeDefaults d f).getD f.exampleTag

/-- The value put into the JSON body slot (lines 159-165): the resolved
string, or the native (`preferString = false`) zero value when it is blank. -/
def jsonSlotValue (d : List (String × String)) (f : GoField) : GoValue :=
  if tagBlank (resolveRaw d f) then TypeZeroValue f.fieldType false
  else .str (resolveRaw d f)

/-- `placeholderValue` after lines 167-169: the resolved string, or the
string-preferring zero value when it is blank. -/
def placeholderValue (d : List (String × String)) (f : GoField) : GoValue :=
  if tagBlank (resolveRaw d f) then TypeZeroValue f.fieldType true
  else .str (resolveRaw d f)

/-- `fmt.Sprint(placeholderValue)`: the string rendered into form, query and
path-variable slots. -/
def stringSlot (d : List (String × String)) (f : GoField) : String :=
  goSprint (placeholderValue d f)

/-- The form parameters one field contributes (lines 171-187): a text entry
for a usable `form` tag, then a file entry for a usable `formFile` tag. -/
def fieldFormContribution (d : List (String × String)) (f : GoField) : List FormParam :=
  (if usableTag f.formTag then [⟨formKeyOf f, stringSlot d f, "text", f.descriptionTag⟩] else []) ++
  (if usableTag f.formFileTag then [⟨formFileKeyOf f, stringSlot d f, "file", f.descriptionTag⟩] else [])

/-- The query parameters one field contributes (lines 189-195). -/
def fieldQueryContribution (d : List (String × String)) (f : GoField) : List QueryParam :=
  if usableTag f.queryTag then [⟨queryKeyOf f, stringSlot d f, f.descriptionTag⟩] else []

/-- The path-variable candidates one field contributes (lines 197-203).
The source sets only `Key`, `Value` and `Type`; the candidate's description
is the zero value `""`. -/
def fieldParamContribution (d : List (String × String)) (f : GoField) : List Variable :=
  if usableTag f.paramTag then [⟨paramKeyOf f, stringSlot d f, "string", ""⟩] else []

/-- The four accumulators filled by the field callback of `Register`
(lines 108-111). -/
structure FieldAcc where
  jsonParams : List (String × GoValue)
  formParams : List FormParam
  queryParams : List QueryParam
  pathVariables : List Variable
deriving Repr

/-- The empty accumulators. -/
def emptyAcc : FieldAcc := ⟨[], [], [], []⟩

/-- The per-field callback body (lines 113-204): a usable `json` tag inserts
into the JSON map; the other four roles append their contributions in order. -/
def processField (d : List (String × String)) (acc : FieldAcc) (f : GoField) : FieldAcc :=
  { jsonParams :=
      if usableTag f.jsonTag then mapInsert acc.jsonParams (jsonKeyOf f) (jsonSlotValue d f)
      else acc.jsonParams
    formParams := acc.formParams ++ fieldFormContribution d f
    queryParams := acc.queryParams ++ fieldQueryContribution d f
    pathVariables := acc.pathVariables ++ fieldParamContribution d f }

/-- Run the field callback over every walked field of the input type. -/
def compileFields (d : List (String × String)) (typ : GoType) : FieldAcc :=
  (walkStructFields typ).foldl (processField d) emptyAcc

/-! ## Path processing (lines 206-234) -/

/-- Line 214: a segment beginning with `:` is rewritten to `":" + key`
where `key` is the segment without its leading colon (an identity rewrite);
other segments are kept. -/
def processSegment (s : String) : String :=
  match s.toList with
  | ':' :: rest => ":" ++ String.mk rest
  | _ => s

/-- Lines 211-232: the URL variable a path segment produces.  A segment
beginning with `:` yields a variable named after the segment without the
colon; the first path-variable candidate with that key supplies value and
description, and without a match the value defaults to the literal `:key`
text with empty description.  Other segments yield nothing. -/
def segmentVariable (pvs : List Variable) (s : String) : Option Variable :=
  match s.toList with
  | ':' :: rest =>
    let key := String.mk rest
    match pvs.find? (fun pv => pv.key == key) with
    | some pv => some ⟨key, pv.value, "string", pv.description⟩
    | none => some ⟨key, ":" ++ key, "string", ""⟩
  | _ => none

/-- Lines 101-264 of `Register`: compile one request from the method, the
raw path, the (already dereferenced) input struct type and the caller
defaults.  Body mode: form data when any form parameter exists, else a raw
JSON body when any JSON parameter exists, else an untouched body. -/
def compileRequest (d : List (String × String)) (method path : String) (typ : GoType) : Request :=
  let acc := compileFields d typ
  let segs0 := splitPath path
  let pathSegments := segs0.map processSegment
  let urlVariables := segs0.filterMap (segmentVariable acc.pathVariables)
  let processedPath := "/" ++ String.intercalate "/" pathSegments
  let base : Request :=
    { url :=
        { raw := "\x7b\x7bbase_url\x7d\x7d" ++ processedPath
          host := ["\x7b\x7bbase_url\x7d\x7d"]
          path := pathSegments
          query := acc.queryParams
          variableList := urlVariables }
      method := method
      header := []
      body := ⟨"", "", [], none⟩ }
  if 0 < acc.formParams.length then
    { base with
        body := ⟨"formdata", "", acc.formParams, none⟩
        header := [⟨"Content-Type", "multipart/form-data"⟩] }
  else if 0 < acc.jsonParams.length then
    { base with
        body := ⟨"raw", jsonMarshalIndentMap acc.jsonParams, [], some "json"⟩
        header := [⟨"Content-Type", "application/json"⟩] }
  else base

/-! ## Tree attachment (lines 266-301) -/

/-- The reuse test of the folder walk (line 279):
`existingItem.Name == segment && existingItem.Request == nil`. -/
def isGroupNamed (seg : String) (i : Items) : Bool :=
  i.name == seg && i.request.isNone

/-- One folder-walk step: find the first reusable folder named `seg` and
apply `g` to its children; if none exists, append a new folder named `seg`
whose children are `g` applied to the empty list, exactly as the source
appends a fresh empty folder and then continues inside it. -/
def stepInto (seg : String) (g : List Items → List Items) : List Items → List Items
  | [] => [Items.mk seg (g []) none]
  | Items.mk n cs req :: tl =>
    if isGroupNamed seg (Items.mk n cs req) then Items.mk n (g cs) req :: tl
    else Items.mk n cs req :: stepInto seg g tl

/-- The folder walk and final append (lines 272-301): descend along the
folder segments with `stepInto`, then append the leaf to the reached
child list. -/
def attachInto : List String → Items → List Items → List Items
  | [], leaf => fun items => items ++ [leaf]
  | seg :: rest, leaf => stepInto seg (attachInto rest leaf)

/-! ## `Register` (lines 79-304) -/

/-- The dynamic values held in the `map[string]any` spec argument. -/
inductive SpecVal where
  | strV : String → SpecVal
  | typeV : GoType → SpecVal
  | otherV : SpecVal

/-- The spec bag passed to `Register`. -/
abbrev Spec := List (String × SpecVal)

/-- `spec[k].(string)`: present and string-typed, or nothing. -/
def specGetString (spec : Spec) (k : String) : Option String :=
  match mapLookup spec k with
  | some (.strV s) => some s
  | _ => none

/-- `spec[k].(reflect.Type)`: present and type-typed, or nothing. -/
def specGetType (spec : Spec) (k : String) : Option GoType :=
  match mapLookup spec k with
  | some (.typeV t) => some t
  | _ => none

/-- `Register`, returning the Go error (when non-nil) together with the
state after the call.  The source mutates the shared tree only in the final
attachment (lines 290 and 301); both error returns precede it, so they
return the state unchanged.  JSON body encoding is total on the modelled
value universe, so the marshal-error return of line 256 has no model. -/
def Register (p : PostmanGen) (spec : Spec) : Option String × PostmanGen :=
  match specGetString spec "method", specGetString spec "path", specGetType spec "inputType" with
  | some method, some path, some inputType =>
    let typ := derefOnce inputType
    if isStructKind typ then
      let request := compileRequest p.placeholderDefaults method path typ
      let pathSegments := (splitPath path).map processSegment
      let item := Items.mk (pathSegments.getLastD "") [] (some request)
      let folderSegments := pathSegments.dropLast
      (none, { p with items := attachInto folderSegments item p.items })
    else (some "invalid object type: must be a struct or pointer to struct", p)
  | _, _, _ => (some "invalid spec: must contain method, path, and inputType", p)

/-! ## Tree well-formedness -/

/-- Whether some reusable folder named `seg` occurs in a child list. -/
def containsGroup (seg : String) (items : List Items) : Bool :=
  items.any (isGroupNamed seg)

/-- The folder-walk search (lines 278-283): the first reusable folder
named `seg`. -/
def findGroup (seg : String) : List Items → Option Items
  | [] => none
  | i :: tl => if isGroupNamed seg i then some i else findGroup seg tl

/-- Descend along a folder path, through the first reusable folder at each
level, and return the child list reached; `none` when some level has no
matching folder. -/
def groupChildren : List String → List Items → Option (List Items)
  | [], items => some items
  | seg :: rest, items =>
    match findGroup seg items with
    | some i => groupChildren rest i.items
    | none => none

mutual

/-- The tree invariant at one node: its child list is well-formed. -/
def TreeOK : Items → Bool
  | .mk _ cs _ => ForestOK cs

/-- The tree invariant of a child list: among folder children the names are
pairwise distinct (each folder's name recurs in no later sibling folder),
and every subtree is well-formed. -/
def ForestOK : List Items → Bool
  | [] => true
  | i :: tl => (i.request.isSome || !containsGroup i.name tl) && TreeOK i && ForestOK tl

end

/-- Concatenation of the per-element contributions of a list, used to
describe the accumulator lists built by the field callback. -/
def concatMap {α β : Type} (g : α → List β) : List α → List β
  | [] => []
  | x :: tl => g x ++ concatMap g tl

/-! ## Helper lemmas -/

theorem usableTag_eq_not_tagBlank (s : String) : usableTag s = !tagBlank s := by
  simp [usableTag, tagBlank, Bool.not_or, bne]

theorem mapInsert_ne_nil {α : Type} (m : List (String × α)) (k : String) (v : α) :
    mapInsert m k v ≠ [] := by
  cases m with
  | nil => simp [mapInsert]
  | cons p tl =>
    cases p with
    | mk k0 v0 =>
      by_cases h : (k0 == k) = true <;> simp [mapInsert, h]

theorem concatMap_eq_nil_iff {α β : Type} (g : α → List β) (l : List α) :
    concatMap g l = [] ↔ ∀ x ∈ l, g x = [] := by
  induction l with
  | nil => simp [concatMap]
  | cons x tl ih => simp [concatMap, ih]

theorem foldl_processField_formParams (d : List (String × String)) (l : List GoField)
    (acc : FieldAcc) :
    (l.foldl (processField d) acc).formParams =
      acc.formParams ++ concatMap (fieldFormContribution d) l := by
  induction l generalizing acc with
  | nil => simp [concatMap]
  | cons f tl ih => simp [ih, processField, concatMap]

theorem foldl_processField_queryParams (d : List (String × String)) (l : List GoField)
    (acc : FieldAcc) :
    (l.foldl (processField d) acc).queryParams =
      acc.queryParams ++ concatMap (fieldQueryContribution d) l := by
  induction l generalizing acc with
  | nil => simp [concatMap]
  | cons f tl ih => simp [ih, processField, concatMap]

theorem foldl_processField_pathVariables (d : List (String × String)) (l : List GoField)
    (acc : FieldAcc) :
    (l.foldl (processField d) acc).pathVariables =
      acc.pathVariables ++ concatMap (fieldParamContribution d) l := by
  induction l generalizing acc with
  | nil => simp [concatMap]
  | cons f tl ih => simp [ih, processField, concatMap]

theorem foldl_processField_jsonParams_eq_nil (d : List (String × String)) (l : List GoField)
    (acc : FieldAcc) :
    (l.foldl (processField d) acc).jsonParams = [] ↔
      (acc.jsonParams = [] ∧ ∀ f ∈ l, usableTag f.jsonTag = false) := by
  induction l generalizing acc with
  | nil => simp
  | cons f tl ih =>
    cases hu : usableTag f.jsonTag with
    | false => simp [List.foldl_cons, ih, processField, hu]
    | true => simp [List.foldl_cons, ih, processField, hu, mapInsert_ne_nil]

theorem compileFields_formParams (d : List (String × String)) (typ : GoType) :
    (compileFields d typ).formParams = concatMap (fieldFormContribution d) (walkStructFields typ) := by
  simp [compileFields, foldl_processField_formParams, emptyAcc]

theorem compileFields_pathVariables (d : List (String × String)) (typ : GoType) :
    (compileFields d typ).pathVariables =
      concatMap (fieldParamContribution d) (walkStructFields typ) := by
  simp [compileFields, foldl_processField_pathVariables, emptyAcc]

theorem compileFields_jsonParams_eq_nil (d : List (String × String)) (typ : GoType) :
    (compileFields d typ).jsonParams = [] ↔
      ∀ f ∈ walkStructFields typ, usableTag f.jsonTag = false := by
  simp [compileFields, foldl_processField_jsonParams_eq_nil, emptyAcc]

/-! ## Claims -/

/-- C1 (amended).  Placeholder precedence: a non-blank `example` tag wins
verbatim regardless of caller defaults; otherwise the caller defaults are
probed with the resolved json-, form-, formFile-, query- and param-keys in
that exact order and the first present entry's value is the placeholder
provided that value is itself non-empty and not `"-"`; otherwise — no entry,
or a blank entry value — the synthesized zero value is used (the native zero
in the JSON slot, the string-preferring zero elsewhere). -/
theorem claim_C1 (d : List (String × String)) (f : GoField) :
    (tagBlank f.exampleTag = false →
      placeholderValue d f = .str f.exampleTag ∧ jsonSlotValue d f = .str f.exampleTag) ∧
    (tagBlank f.exampleTag = true → ∀ v, probeDefaults d f = some v → tagBlank v = false →
      placeholderValue d f = .str v ∧ jsonSlotValue d f = .str v) ∧
    (tagBlank f.exampleTag = true → ∀ v, probeDefaults d f = some v → tagBlank v = true →
      placeholderValue d f = TypeZeroValue f.fieldType true ∧
      jsonSlotValue d f = TypeZeroValue f.fieldType false) ∧
    (tagBlank f.exampleTag = true → probeDefaults d f = none →
      placeholderValue d f = TypeZeroValue f.fieldType true ∧
      jsonSlotValue d f = TypeZeroValue f.fieldType false) ∧
    (∀ v, mapLookup d (jsonKeyOf f) = some v → probeDefaults d f = some v) ∧
    (mapLookup d (jsonKeyOf f) = none →
      ∀ v, mapLookup d (formKeyOf f) = some v → probeDefaults d f = some v) ∧
    (mapLookup d (jsonKeyOf f) = none → mapLookup d (formKeyOf f) = none →
      ∀ v, mapLookup d (formFileKeyOf f) = some v → probeDefaults d f = some v) ∧
    (mapLookup d (jsonKeyOf f) = none → mapLookup d (formKeyOf f) = none →
      mapLookup d (formFileKeyOf f) = none →
      ∀ v, mapLookup d (queryKeyOf f) = some v → probeDefaults d f = some v) ∧
    (mapLookup d (jsonKeyOf f) = none → mapLookup d (formKeyOf f) = none →
      mapLookup d (formFileKeyOf f) = none → mapLookup d (queryKeyOf f) = none →
      probeDefaults d f = mapLookup d (paramKeyOf f)) := by
  refine ⟨?_, ?_, ?_, ?_, ?_, ?_, ?_, ?_, ?_⟩
  · intro h
    simp [placeholderValue, jsonSlotValue, resolveRaw, usableTag_eq_not_tagBlank, h]
  · intro h v hv hb
    simp [placeholderValue, jsonSlotValue, resolveRaw, usableTag_eq_not_tagBlank, h, hv, hb]
  · intro h v hv hb
    simp [placeholderValue, jsonSlotValue, resolveRaw, usableTag_eq_not_tagBlank, h, hv, hb]
  · intro h hp
    simp [placeholderValue, jsonSlotValue, resolveRaw, usableTag_eq_not_tagBlank, h, hp]
  · intro v hv
    simp [probeDefaults, hv]
  · intro h1 v hv
    simp [probeDefaults, h1, hv]
  · intro h1 h2 v hv
    simp [probeDefaults, h1, h2, hv]
  · intro h1 h2 h3 v hv
    simp [probeDefaults, h1, h2, h3, hv]
  · intro h1 h2 h3 h4
    simp [probeDefaults, h1, h2, h3, h4]

/-- C1 witness: for a field whose `example` tag is `"x"`, the placeholder is
the tag value even though a caller default exists for its json-key. -/
theorem claim_C1_witness :
    placeholderValue [("a", "other")] ⟨"A", "a", "", "", "", "", "", "x", false, .intT⟩ =
      .str "x" :=
  ((claim_C1 [("a", "other")] ⟨"A", "a", "", "", "", "", "", "x", false, .intT⟩).1 (by decide)).1

/-- C1 counterexample: a field with a blank `example` tag and a caller
default whose value is the sentinel `"-"` for its json-key.  The claim says
the first present entry's value (`"-"`) is the placeholder; the code
replaces the blank probe result with the synthesized zero value `0`. -/
theorem claim_C1_counterexample :
    probeDefaults [("a", "-")] ⟨"A", "a", "", "", "", "", "", "", false, .intT⟩ = some "-" ∧
    tagBlank (GoFieldG.exampleTag ⟨"A", "a", "", "", "", "", "", "", false, (.intT : GoType)⟩) = true ∧
    placeholderValue [("a", "-")] ⟨"A", "a", "", "", "", "", "", "", false, .intT⟩ = .int 0 ∧
    jsonSlotValue [("a", "-")] ⟨"A", "a", "", "", "", "", "", "", false, .intT⟩ = .int 0 ∧
    ¬ placeholderValue [("a", "-")] ⟨"A", "a", "", "", "", "", "", "", false, .intT⟩ = .str "-" := by
  refine ⟨?_, ?_, ?_, ?_, ?_⟩ <;>
    simp [probeDefaults, mapLookup, jsonKeyOf, keyOr, tagBlank, placeholderValue, jsonSlotValue,
      resolveRaw, usableTag, TypeZeroValue, reflectZero]

/-- C5.  A field with a blank `example` tag and no matching caller default:
the JSON slot receives the native zero value (`preferString = false`), every
string-rendered slot receives the stringified string-preferring zero value;
integers give `0`/`"0"`, booleans `false`/`"false"`, slices a one-element
slice of the element type's zero value, and struct types under
`preferString` the JSON-serialized zero instance. -/
theorem claim_C5 (d : List (String × String)) (f : GoField)
    (hb : tagBlank f.exampleTag = true) (hp : probeDefaults d f = none) :
    jsonSlotValue d f = TypeZeroValue f.fieldType false ∧
    stringSlot d f = goSprint (TypeZeroValue f.fieldType true) ∧
    TypeZeroValue .intT false = .int 0 ∧
    TypeZeroValue .boolT false = .bool false ∧
    goSprint (TypeZeroValue .intT true) = "0" ∧
    goSprint (TypeZeroValue .boolT true) = "false" ∧
    (∀ t : GoType, TypeZeroValue (.sliceT t) false = .list [TypeZeroValue t false]) ∧
    (∀ t : GoType, TypeZeroValue (.sliceT t) true = .list [TypeZeroValue t true]) ∧
    (∀ fs : List GoField,
      TypeZeroValue (.structT fs) true = .str (jsonMarshal (reflectZero (.structT fs)))) := by
  refine ⟨?_, ?_, by simp [TypeZeroValue, reflectZero], by simp [TypeZeroValue, reflectZero],
    by simp [TypeZeroValue, reflectZero, goSprint]; decide,
    by simp [TypeZeroValue, reflectZero, goSprint],
    fun t => by simp [TypeZeroValue], fun t => by simp [TypeZeroValue], fun fs => by simp [TypeZeroValue]⟩
  · simp [jsonSlotValue, resolveRaw, usableTag_eq_not_tagBlank, hb, hp]
  · simp [stringSlot, placeholderValue, resolveRaw, usableTag_eq_not_tagBlank, hb, hp]

/-- C5 witness: an `int` field with `query` tag, no example and no caller
defaults puts `"0"` into its query slot and would put `0` into a JSON slot. -/
theorem claim_C5_witness :
    jsonSlotValue [] ⟨"Count", "", "", "", "count", "", "", "", false, .intT⟩ = .int 0 ∧
    stringSlot [] ⟨"Count", "", "", "", "count", "", "", "", false, .intT⟩ = "0" := by
  have h := claim_C5 [] ⟨"Count", "", "", "", "count", "", "", "", false, .intT⟩
    (by decide) (by simp [probeDefaults, mapLookup])
  refine ⟨?_, ?_⟩
  · rw [h.1]
    simp [TypeZeroValue, reflectZero]
  · rw [h.2.1]
    simp [TypeZeroValue, reflectZero, goSprint]
    decide

/-! ## Tree lemmas -/

theorem groupChildren_nil_getD (segs : List String) : (groupChildren segs []).getD [] = [] := by
  cases segs with
  | nil => simp [groupChildren]
  | cons s rest => simp [groupChildren, findGroup]

theorem findGroup_append_group (seg : String) (items : List Items) (cs : List Items)
    (h : findGroup seg items = none) :
    findGroup seg (items ++ [Items.mk seg cs none]) = some (Items.mk seg cs none) := by
  induction items with
  | nil => simp [findGroup, isGroupNamed, Items.name, Items.request]
  | cons i tl ih =>
    rw [findGroup] at h
    cases hg : isGroupNamed seg i with
    | true => rw [if_pos hg] at h; exact absurd h (by simp)
    | false =>
      rw [if_neg (by simp [hg])] at h
      rw [List.cons_append, findGroup, if_neg (by simp [hg])]
      exact ih h

theorem stepInto_of_findGroup_none (seg : String) (g : List Items → List Items) :
    ∀ items, findGroup seg items = none →
      stepInto seg g items = items ++ [Items.mk seg (g []) none] := by
  intro items
  induction items with
  | nil => intro _; simp [stepInto]
  | cons i tl ih =>
    intro h
    cases i with
    | mk n cs r =>
      rw [findGroup] at h
      cases hg : isGroupNamed seg (Items.mk n cs r) with
      | true => rw [if_pos hg] at h; exact absurd h (by simp)
      | false =>
        rw [if_neg (by simp [hg])] at h
        rw [stepInto, if_neg (by simp [hg]), ih h, List.cons_append]

theorem findGroup_stepInto_of_some (seg : String) (g : List Items → List Items) :
    ∀ items n cs r, findGroup seg items = some (Items.mk n cs r) →
      findGroup seg (stepInto seg g items) = some (Items.mk n (g cs) r) := by
  intro items
  induction items with
  | nil => intro n cs r h; simp [findGroup] at h
  | cons i tl ih =>
    intro n cs r h
    cases i with
    | mk m ds q =>
      rw [findGroup] at h
      cases hg : isGroupNamed seg (Items.mk m ds q) with
      | true =>
        rw [if_pos hg] at h
        have h2 := Option.some.inj h
        injection h2 with e1 e2 e3
        subst e1; subst e2; subst e3
        rw [stepInto, if_pos hg, findGroup,
          if_pos (by simpa [isGroupNamed, Items.name, Items.request] using hg)]
      | false =>
        rw [if_neg (by simp [hg])] at h
        rw [stepInto, if_neg (by simp [hg]), findGroup, if_neg (by simp [hg])]
        exact ih n cs r h

theorem attachInto_groupChildren :
    ∀ (segs : List String) (leaf : Items) (items : List Items),
      groupChildren segs (attachInto segs leaf items) =
        some (((groupChildren segs items).getD []) ++ [leaf]) := by
  intro segs
  induction segs with
  | nil => intro leaf items; simp [attachInto, groupChildren]
  | cons seg rest ih =>
    intro leaf items
    rw [attachInto]
    cases hf : findGroup seg items with
    | some i =>
      cases i with
      | mk n cs r =>
        rw [groupChildren, findGroup_stepInto_of_some seg _ items n cs r hf]
        rw [groupChildren, hf]
        simp [Items.items, ih]
    | none =>
      rw [stepInto_of_findGroup_none seg _ items hf]
      rw [groupChildren, findGroup_append_group seg items _ hf]
      rw [groupChildren, hf]
      simp [Items.items, ih, groupChildren_nil_getD]

/-- C3.  Attaching walks all but the last segment, reusing the first
existing group with the segment's name and otherwise appending a fresh
group; the leaf is always appended, never merged: the child list reached by
the group path grows by exactly the leaf, attaching twice appends the leaf
twice as two siblings, and a missing group is created at the end of the
current child list. -/
theorem claim_C3 :
    (∀ (segs : List String) (leaf : Items) (items : List Items),
      groupChildren segs (attachInto segs leaf items) =
        some (((groupChildren segs items).getD []) ++ [leaf])) ∧
    (∀ (segs : List String) (leaf : Items) (items : List Items),
      groupChildren segs (attachInto segs leaf (attachInto segs leaf items)) =
        some (((groupChildren segs items).getD []) ++ [leaf, leaf])) ∧
    (∀ (seg : String) (rest : List String) (leaf : Items) (items : List Items),
      findGroup seg items = none →
      attachInto (seg :: rest) leaf items =
        items ++ [Items.mk seg (attachInto rest leaf []) none]) := by
  refine ⟨attachInto_groupChildren, ?_, ?_⟩
  · intro segs leaf items
    rw [attachInto_groupChildren, attachInto_groupChildren]
    simp
  · intro seg rest leaf items h
    rw [attachInto]
    exact stepInto_of_findGroup_none seg _ items h

/-- C3 witness: attaching under a missing group `users` creates that group
at the end of the (empty) root list with the leaf inside. -/
theorem claim_C3_witness :
    attachInto ["users"] (Items.mk "p" [] none) [] =
      [] ++ [Items.mk "users" (attachInto [] (Items.mk "p" [] none) []) none] :=
  claim_C3.2.2 "users" [] (Items.mk "p" [] none) [] rfl

/-! ## Invariant preservation -/

theorem containsGroup_append (seg : String) (items : List Items) (i : Items) :
    containsGroup seg (items ++ [i]) = (containsGroup seg items || isGroupNamed seg i) := by
  simp [containsGroup]

theorem ForestOK_append_leaf (nm : String) (lcs : List Items) (req : Request) :
    ∀ items, ForestOK items = true → ForestOK lcs = true →
      ForestOK (items ++ [Items.mk nm lcs (some req)]) = true := by
  intro items
  induction items with
  | nil =>
    intro _ hl
    simp [ForestOK, TreeOK, containsGroup, Items.request, Items.name, hl]
  | cons i tl ih =>
    intro h hl
    rw [List.cons_append]
    simp only [ForestOK, Bool.and_eq_true] at h
    obtain ⟨⟨h1, h2⟩, h3⟩ := h
    have hcg : containsGroup i.name (tl ++ [Items.mk nm lcs (some req)]) =
        containsGroup i.name tl := by
      rw [containsGroup_append]
      simp [isGroupNamed, Items.request]
    simp only [ForestOK, Bool.and_eq_true]
    exact ⟨⟨by rw [hcg]; exact h1, h2⟩, ih h3 hl⟩

theorem containsGroup_stepInto (nme seg : String) (g : List Items → List Items)
    (hne : (nme == seg) = false) :
    ∀ items, containsGroup nme (stepInto seg g items) = containsGroup nme items := by
  have hne' : ¬(seg = nme) := fun e => by subst e; simp at hne
  intro items
  induction items with
  | nil =>
    simp [stepInto, containsGroup, isGroupNamed, Items.name, Items.request, hne']
  | cons i tl ih =>
    cases i with
    | mk m ds q =>
      cases hg : isGroupNamed seg (Items.mk m ds q) with
      | true =>
        rw [stepInto, if_pos hg]
        simp [containsGroup, isGroupNamed, Items.name, Items.request]
      | false =>
        rw [stepInto, if_neg (by simp [hg])]
        simp only [containsGroup, List.any_cons] at ih ⊢
        rw [ih]

theorem stepInto_ForestOK (seg : String) (g : List Items → List Items)
    (hg : ∀ cs, ForestOK cs = true → ForestOK (g cs) = true) :
    ∀ items, ForestOK items = true → ForestOK (stepInto seg g items) = true := by
  intro items
  induction items with
  | nil =>
    intro _
    have h0 : ForestOK (g []) = true := hg [] (by simp [ForestOK])
    rw [stepInto]
    simp [ForestOK, TreeOK, containsGroup, Items.request, Items.name, h0]
  | cons i tl ih =>
    intro h
    cases i with
    | mk m ds q =>
      simp only [ForestOK, Bool.and_eq_true] at h
      obtain ⟨⟨h1, h2⟩, h3⟩ := h
      simp only [Items.name, Items.request] at h1 h2
      cases hgn : isGroupNamed seg (Items.mk m ds q) with
      | true =>
        rw [stepInto, if_pos hgn]
        have h2' : ForestOK (g ds) = true := hg ds (by simpa [TreeOK] using h2)
        simp [ForestOK, TreeOK, Items.name, Items.request, h1, h2', h3]
      | false =>
        rw [stepInto, if_neg (by simp [hgn])]
        have h3' := ih h3
        cases q with
        | some r =>
          simp [ForestOK, Items.name, Items.request, h2, h3', TreeOK]
          exact h2
        | none =>
          have hms : (m == seg) = false := by
            simpa [isGroupNamed, Items.name, Items.request] using hgn
          have hcg := containsGroup_stepInto m seg g hms tl
          have h1' : containsGroup m tl = false := by simpa using h1
          simp [ForestOK, Items.name, Items.request, h2, h3', hcg, h1', TreeOK]
          exact h2

theorem attachInto_ForestOK (nm : String) (lcs : List Items) (req : Request)
    (hl : ForestOK lcs = true) :
    ∀ segs items, ForestOK items = true →
      ForestOK (attachInto segs (Items.mk nm lcs (some req)) items) = true := by
  intro segs
  induction segs with
  | nil =>
    intro items h
    rw [attachInto]
    exact ForestOK_append_leaf nm lcs req items h hl
  | cons seg rest ih =>
    intro items h
    rw [attachInto]
    exact stepInto_ForestOK seg _ (fun cs hcs => ih cs hcs) items h

/-- C4.  Every `Register` call preserves the tree invariant: within any one
node's children, names are unique among group nodes (nodes with no attached
request); the attached leaf carries a request and is never merge-matched. -/
theorem claim_C4 (p : PostmanGen) (spec : Spec) (h : ForestOK p.items = true) :
    ForestOK ((Register p spec).2.items) = true := by
  cases hm : specGetString spec "method" with
  | none => simpa [Register, hm] using h
  | some m =>
    cases hpa : specGetString spec "path" with
    | none => simpa [Register, hm, hpa] using h
    | some pa =>
      cases ht : specGetType spec "inputType" with
      | none => simpa [Register, hm, hpa, ht] using h
      | some t =>
        cases hs : isStructKind (derefOnce t) with
        | false => simpa [Register, hm, hpa, ht, hs] using h
        | true =>
          simp only [Register, hm, hpa, ht, hs, if_pos rfl]
          exact attachInto_ForestOK _ [] _ (by simp [ForestOK]) _ p.items h

/-- C4 witness: registering into the empty collection preserves the
invariant. -/
theorem claim_C4_witness :
    ForestOK ((Register NewPostmanGen
      [("method", .strV "GET"), ("path", .strV "/users/:userId"),
       ("inputType", .typeV (.structT []))]).2.items) = true :=
  claim_C4 NewPostmanGen _ (by simp [NewPostmanGen, ForestOK])

/-! ## Body-mode selection -/

theorem fieldFormContribution_eq_nil (d : List (String × String)) (f : GoField) :
    fieldFormContribution d f = [] ↔
      (usableTag f.formTag = false ∧ usableTag f.formFileTag = false) := by
  cases h1 : usableTag f.formTag <;> cases h2 : usableTag f.formFileTag <;>
    simp [fieldFormContribution, h1, h2]

theorem mem_concatMap {α β : Type} (g : α → List β) (l : List α) (b : β) :
    b ∈ concatMap g l ↔ ∃ x ∈ l, b ∈ g x := by
  induction l with
  | nil => simp [concatMap]
  | cons x tl ih => simp [concatMap, ih]

/-- C2.  Body-mode decision, first match wins: any field with a usable
`form` or `formFile` tag gives form-data mode with the single header
`Content-Type: multipart/form-data` and no JSON content; otherwise any field
with a usable `json` tag gives raw mode with the 2-space-indented JSON body
and the single header `Content-Type: application/json`; otherwise the body
is untouched and no header is emitted. -/
theorem claim_C2 (d : List (String × String)) (m path : String) (typ : GoType) :
    ((∃ f ∈ walkStructFields typ, (usableTag f.formTag || usableTag f.formFileTag) = true) →
      (compileRequest d m path typ).body.mode = "formdata" ∧
      (compileRequest d m path typ).body.formData = (compileFields d typ).formParams ∧
      (compileRequest d m path typ).body.raw = "" ∧
      (compileRequest d m path typ).body.rawLanguage = none ∧
      (compileRequest d m path typ).header = [⟨"Content-Type", "multipart/form-data"⟩]) ∧
    ((∀ f ∈ walkStructFields typ, usableTag f.formTag = false ∧ usableTag f.formFileTag = false) →
      (∃ f ∈ walkStructFields typ, usableTag f.jsonTag = true) →
      (compileRequest d m path typ).body.mode = "raw" ∧
      (compileRequest d m path typ).body.raw =
        jsonMarshalIndentMap (compileFields d typ).jsonParams ∧
      (compileRequest d m path typ).body.rawLanguage = some "json" ∧
      (compileRequest d m path typ).body.formData = [] ∧
      (compileRequest d m path typ).header = [⟨"Content-Type", "application/json"⟩]) ∧
    ((∀ f ∈ walkStructFields typ,
        usableTag f.formTag = false ∧ usableTag f.formFileTag = false ∧
        usableTag f.jsonTag = false) →
      (compileRequest d m path typ).body.mode = "" ∧
      (compileRequest d m path typ).body.raw = "" ∧
      (compileRequest d m path typ).body.formData = [] ∧
      (compileRequest d m path typ).header = []) := by
  have hformnil : (compileFields d typ).formParams = [] ↔
      ∀ f ∈ walkStructFields typ, usableTag f.formTag = false ∧ usableTag f.formFileTag = false := by
    rw [compileFields_formParams, concatMap_eq_nil_iff]
    constructor <;> intro h f hf
    · exact (fieldFormContribution_eq_nil d f).1 (h f hf)
    · exact (fieldFormContribution_eq_nil d f).2 (h f hf)
  refine ⟨?_, ?_, ?_⟩
  · rintro ⟨f, hf, hforms⟩
    have hne : (compileFields d typ).formParams ≠ [] := by
      intro h0
      obtain ⟨e1, e2⟩ := (hformnil.1 h0) f hf
      rw [e1, e2] at hforms
      simp at hforms
    have hlen : 0 < (compileFields d typ).formParams.length := List.length_pos.2 hne
    simp [compileRequest, hlen]
  · rintro hall ⟨f, hf, hjson⟩
    have h0 : (compileFields d typ).formParams = [] := hformnil.2 hall
    have hlen0 : ¬(0 < (compileFields d typ).formParams.length) := by simp [h0]
    have hjne : (compileFields d typ).jsonParams ≠ [] := by
      intro hnil
      have := (compileFields_jsonParams_eq_nil d typ).1 hnil f hf
      rw [this] at hjson
      exact absurd hjson (by simp)
    have hlenj : 0 < (compileFields d typ).jsonParams.length := List.length_pos.2 hjne
    simp [compileRequest, hlen0, hlenj]
  · intro hall
    have h0 : (compileFields d typ).formParams = [] :=
      hformnil.2 (fun f hf => ⟨(hall f hf).1, (hall f hf).2.1⟩)
    have hj : (compileFields d typ).jsonParams = [] :=
      (compileFields_jsonParams_eq_nil d typ).2 (fun f hf => (hall f hf).2.2)
    simp [compileRequest, h0, hj]

/-- C2 witness: a record with both a `form` field and a `json` field yields
form-data mode. -/
theorem claim_C2_witness :
    (compileRequest [] "POST" "/x"
      (.structT [⟨"F", "j", "f", "", "", "", "", "v", false, .stringT⟩])).body.mode =
      "formdata" :=
  ((claim_C2 [] "POST" "/x"
      (.structT [⟨"F", "j", "f", "", "", "", "", "v", false, .stringT⟩])).1
    ⟨⟨"F", "j", "f", "", "", "", "", "v", false, .stringT⟩,
      by simp [walkStructFields, walkFields], by decide⟩).1

/-! ## Path variables -/

/-- C7.  A path segment beginning with `:` whose key matches no
path-variable candidate emits a URL variable whose display value is the
literal segment text `:key` with empty description; the processed segment is
`:key`; and the raw URL of every compiled request is `{{base_url}}` followed
by the rejoined processed path segments. -/
theorem claim_C7 :
    (∀ (pvs : List Variable) (s : String) (cs : List Char),
      s.toList = ':' :: cs →
      pvs.find? (fun pv => pv.key == String.mk cs) = none →
      segmentVariable pvs s = some ⟨String.mk cs, ":" ++ String.mk cs, "string", ""⟩ ∧
      processSegment s = ":" ++ String.mk cs) ∧
    (∀ (d : List (String × String)) (m path : String) (typ : GoType),
      (compileRequest d m path typ).url.raw =
        "\x7b\x7bbase_url\x7d\x7d" ++
          ("/" ++ String.intercalate "/" ((splitPath path).map processSegment))) := by
  constructor
  · intro pvs s cs hs hf
    have hs' : s.data = ':' :: cs := hs
    constructor
    · simp [segmentVariable, hs', hf]
    · simp [processSegment, hs']
  · intro d m path typ
    simp only [compileRequest]
    split
    · rfl
    · split <;> rfl

/-- C7 witness: the segment `:id` with no matching candidate yields the
variable `id` valued `:id` with empty description and stays `:id`. -/
theorem claim_C7_witness :
    segmentVariable [] ":id" = some ⟨String.mk ['i', 'd'], ":" ++ String.mk ['i', 'd'], "string", ""⟩ ∧
    processSegment ":id" = ":" ++ String.mk ['i', 'd'] :=
  claim_C7.1 [] ":id" ['i', 'd'] (by decide) rfl

/-- C8 (amended).  A path segment beginning with `:` whose key matches a
path-variable candidate emits a URL variable whose value is the candidate's
value — the field's resolved placeholder — and whose description is copied
from the candidate; but the candidates built from `param`-tagged fields
always carry an empty description (the source never populates it), so the
field's `description` tag does not reach the URL variable. -/
theorem claim_C8 :
    (∀ (pvs : List Variable) (s : String) (cs : List Char) (pv : Variable),
      s.toList = ':' :: cs →
      pvs.find? (fun x => x.key == String.mk cs) = some pv →
      segmentVariable pvs s = some ⟨String.mk cs, pv.value, "string", pv.description⟩) ∧
    (∀ (d : List (String × String)) (typ : GoType),
      (compileFields d typ).pathVariables =
        concatMap (fieldParamContribution d) (walkStructFields typ)) ∧
    (∀ (d : List (String × String)) (typ : GoType) (pv : Variable),
      pv ∈ (compileFields d typ).pathVariables →
        pv.description = "" ∧ pv.type = "string") := by
  refine ⟨?_, compileFields_pathVariables, ?_⟩
  · intro pvs s cs pv hs hf
    have hs' : s.data = ':' :: cs := hs
    simp [segmentVariable, hs', hf]
  · intro d typ pv hpv
    rw [compileFields_pathVariables] at hpv
    obtain ⟨f, _, hin⟩ := (mem_concatMap _ _ _).1 hpv
    by_cases hu : usableTag f.paramTag = true
    · rw [fieldParamContribution, if_pos hu] at hin
      simp only [List.mem_singleton] at hin
      subst hin
      exact ⟨rfl, rfl⟩
    · rw [fieldParamContribution, if_neg hu] at hin
      simp at hin

/-- C8 witness: a candidate `userId` valued `abc` with description `d0`
supplies value and (candidate) description to the URL variable. -/
theorem claim_C8_witness :
    segmentVariable [⟨"userId", "abc", "string", "d0"⟩] ":userId" =
      some ⟨String.mk ['u', 's', 'e', 'r', 'I', 'd'], "abc", "string", "d0"⟩ :=
  claim_C8.1 [⟨"userId", "abc", "string", "d0"⟩] ":userId" ['u', 's', 'e', 'r', 'I', 'd']
    ⟨"userId", "abc", "string", "d0"⟩ (by decide) (by decide)

/-- C8 counterexample: a field tagged `param:"userId" description:"The user
id" example:"abc"` produces the URL variable with empty description — the
field's description tag is not carried over. -/
theorem claim_C8_counterexample :
    (compileRequest [] "GET" "/users/:userId"
        (.structT [⟨"UserID", "", "", "", "", "userId", "The user id", "abc", false,
          .stringT⟩])).url.variableList =
      [⟨"userId", "abc", "string", ""⟩] ∧
    ¬ (compileRequest [] "GET" "/users/:userId"
        (.structT [⟨"UserID", "", "", "", "", "userId", "The user id", "abc", false,
          .stringT⟩])).url.variableList =
      [⟨"userId", "abc", "string", "The user id"⟩] := by
  constructor <;>
  · simp [compileRequest, compileFields, walkStructFields, walkFields, processField, emptyAcc,
      fieldParamContribution, fieldFormContribution, fieldQueryContribution, usableTag,
      stringSlot, placeholderValue, resolveRaw, tagBlank, paramKeyOf, keyOr, goSprint,
      segmentVariable] <;> decide

/-! ## The concrete GET /users/:userId registration -/

/-- C6.  Registering `GET /users/:userId` with a record having one field
tagged `param:"userId" example:"abc"`: the compiled request's path segments
are `users`, `:userId`; its URL variable list is exactly the entry
`userId = abc`; its raw URL is `{{base_url}}/users/:userId`; and the
registered tree holds it as the leaf `:userId` inside the group `users`. -/
theorem claim_C6 :
    (compileRequest [] "GET" "/users/:userId"
        (.structT [⟨"UserID", "", "", "", "", "userId", "", "abc", false, .stringT⟩])).url.path =
      ["users", ":userId"] ∧
    (compileRequest [] "GET" "/users/:userId"
        (.structT [⟨"UserID", "", "", "", "", "userId", "", "abc", false,
          .stringT⟩])).url.variableList =
      [⟨"userId", "abc", "string", ""⟩] ∧
    (compileRequest [] "GET" "/users/:userId"
        (.structT [⟨"UserID", "", "", "", "", "userId", "", "abc", false, .stringT⟩])).url.raw =
      "\x7b\x7bbase_url\x7d\x7d/users/:userId" ∧
    (Register NewPostmanGen
        [("method", .strV "GET"), ("path", .strV "/users/:userId"),
         ("inputType", .typeV (.structT [⟨"UserID", "", "", "", "", "userId", "", "abc", false,
           .stringT⟩]))]).1 = none ∧
    (Register NewPostmanGen
        [("method", .strV "GET"), ("path", .strV "/users/:userId"),
         ("inputType", .typeV (.structT [⟨"UserID", "", "", "", "", "userId", "", "abc", false,
           .stringT⟩]))]).2.items.map Items.name = ["users"] ∧
    (Register NewPostmanGen
        [("method", .strV "GET"), ("path", .strV "/users/:userId"),
         ("inputType", .typeV (.structT [⟨"UserID", "", "", "", "", "userId", "", "abc", false,
           .stringT⟩]))]).2.items.map (fun i => i.items.map Items.name) = [[":userId"]] ∧
    (Register NewPostmanGen
        [("method", .strV "GET"), ("path", .strV "/users/:userId"),
         ("inputType", .typeV (.structT [⟨"UserID", "", "", "", "", "userId", "", "abc", false,
           .stringT⟩]))]).2.items.map (fun i => i.items.map Items.request) =
      [[some (compileRequest [] "GET" "/users/:userId"
        (.structT [⟨"UserID", "", "", "", "", "userId", "", "abc", false, .stringT⟩]))]] := by
  refine ⟨?_, ?_, ?_, ?_, ?_, ?_, ?_⟩
  · simp [compileRequest, compileFields, walkStructFields, walkFields, processField, emptyAcc,
      fieldParamContribution, fieldFormContribution, fieldQueryContribution, usableTag,
      stringSlot, placeholderValue, resolveRaw, tagBlank, paramKeyOf, keyOr, goSprint] <;>
      decide
  · simp [compileRequest, compileFields, walkStructFields, walkFields, processField, emptyAcc,
      fieldParamContribution, fieldFormContribution, fieldQueryContribution, usableTag,
      stringSlot, placeholderValue, resolveRaw, tagBlank, paramKeyOf, keyOr, goSprint,
      segmentVariable] <;> decide
  · simp [compileRequest, compileFields, walkStructFields, walkFields, processField, emptyAcc,
      fieldParamContribution, fieldFormContribution, fieldQueryContribution, usableTag,
      stringSlot, placeholderValue, resolveRaw, tagBlank, paramKeyOf, keyOr, goSprint] <;>
      decide
  · simp [Register, NewPostmanGen, specGetString, specGetType, mapLookup, derefOnce, isStructKind]
  · simp [Register, NewPostmanGen, specGetString, specGetType, mapLookup, derefOnce, isStructKind,
      splitPath, splitSlash, splitSlashAux, trimSlashes, processSegment, attachInto, stepInto,
      Items.items, Items.request, Items.name] <;> decide
  · simp [Register, NewPostmanGen, specGetString, specGetType, mapLookup, derefOnce, isStructKind,
      splitPath, splitSlash, splitSlashAux, trimSlashes, processSegment, attachInto, stepInto,
      Items.items, Items.request, Items.name] <;> decide
  · simp [Register, NewPostmanGen, specGetString, specGetType, mapLookup, derefOnce, isStructKind,
      splitPath, splitSlash, splitSlashAux, trimSlashes, processSegment, attachInto, stepInto,
      Items.items, Items.request, Items.name]

/-! ## Error behavior -/

/-- C9.  `Register` succeeds exactly on well-formed specs: a string-typed
`method` entry, a string-typed `path` entry, and a type-typed `inputType`
entry whose one-level pointer dereference is a struct type; it errors on
everything else (JSON body encoding is total on the modelled values). -/
theorem claim_C9 (p : PostmanGen) (spec : Spec) :
    (Register p spec).1 = none ↔
      ((∃ m, specGetString spec "method" = some m) ∧
       (∃ pa, specGetString spec "path" = some pa) ∧
       (∃ t, specGetType spec "inputType" = some t ∧ isStructKind (derefOnce t) = true)) := by
  cases hm : specGetString spec "method" with
  | none => simp [Register, hm]
  | some m =>
    cases hpa : specGetString spec "path" with
    | none => simp [Register, hm, hpa]
    | some pa =>
      cases ht : specGetType spec "inputType" with
      | none => simp [Register, hm, hpa, ht]
      | some t =>
        cases hs : isStructKind (derefOnce t) with
        | false => simp [Register, hm, hpa, ht, hs]
        | true => simp [Register, hm, hpa, ht, hs]

/-- C10.  Whenever `Register` returns an error, the collection state is
unchanged: no variable added, no tree node created, no request attached. -/
theorem claim_C10 (p : PostmanGen) (spec : Spec) (e : String)
    (h : (Register p spec).1 = some e) : (Register p spec).2 = p := by
  cases hm : specGetString spec "method" with
  | none => simp [Register, hm]
  | some m =>
    cases hpa : specGetString spec "path" with
    | none => simp [Register, hm, hpa]
    | some pa =>
      cases ht : specGetType spec "inputType" with
      | none => simp [Register, hm, hpa, ht]
      | some t =>
        cases hs : isStructKind (derefOnce t) with
        | false => simp [Register, hm, hpa, ht, hs]
        | true => simp [Register, hm, hpa, ht, hs] at h

/-- C10 witness: registering an empty spec errors and leaves the fresh
collection untouched. -/
theorem claim_C10_witness :
    (Register NewPostmanGen []).2 = NewPostmanGen :=
  claim_C10 NewPostmanGen [] "invalid spec: must contain method, path, and inputType" rfl

end Postmangen
